/-
Verification of the health-diary core (src/main.js): event store, weather
cache, cycle builder and per-cycle statistics, shallowly embedded in Lean.

Conventions of the embedding:
* epoch-millisecond timestamps are Int;
* JS numbers that only flow through comparisons and sums are Int;
  a value that may be undefined / not a number is Option Int;
* asynchronous effects (geolocation, the weather HTTP fetch) are passed in
  as oracle arguments; a JS throw is Except.error;
* the IndexedDB object stores are association lists; idb put is an upsert.
-/
import Mathlib

namespace HD

/-- The fixed enumeration of event kinds used throughout main.js. -/
inductive EType where
  | water | exercise | urinate | food | coffee | glicemia | sol | sweet
  | alcool | isotonic | wake | sleep_start | sleep_end
deriving DecidableEq, Repr

/-- A weather reading attached to an event: weatherForEventTs returns
the nearest sample's temp and hum together with the record's lat / lon. -/
structure Weather where
  temp : Int
  hum : Int
  lat : Int
  lon : Int
deriving DecidableEq, Repr

/-- An event record. Fields that a JS event object may simply lack
(id and dateKey before the store assigns them, the per-kind payload
fields, the optional weather reading) are Options. Digit-string payloads
(glicemia level, sol duration) are modelled by their integer values. -/
structure Event where
  id : Option String := none
  type : EType
  ts : Int
  dateKey : Option String := none
  amount : Option Int := none
  subtype : Option String := none
  note : Option String := none
  level : Option Int := none
  duration : Option Int := none
  weather : Option Weather := none
deriving DecidableEq, Repr

/-- The two phases of the cycle state machine. -/
inductive Phase where
  | DAY | NIGHT
deriving DecidableEq, Repr

/-- A derived cycle record, as pushed by buildCyclesFromEvents. The JS
local variable startTs starts out null, so the field is optional. -/
structure Cycle where
  id : String
  type : Phase
  startTs : Option Int
  endTs : Option Int
  startEvent : Option Event
  endEvent : Option Event
deriving DecidableEq, Repr

/-- A device position as resolved by getLatLon (already rounded). -/
structure Loc where
  lat : Int
  lon : Int
deriving DecidableEq, Repr

/-- A weather_cache record as written by getDailyWeatherArrays. Every
record the program writes carries the three parallel arrays (possibly
empty); entries of temps / hums may be non-numeric (none). Math.min /
Math.max over an empty or non-numeric list (Infinity / NaN) is none. -/
structure WRecord where
  key : String
  dateKey : String
  lat : Int
  lon : Int
  hours : List Int
  temps : List (Option Int)
  hums : List (Option Int)
  minTemp : Option Int
  maxTemp : Option Int
  minHum : Option Int
  maxHum : Option Int
  fetchedAt : Int
deriving DecidableEq, Repr

/-- What the code extracts from a successful open-meteo response:
hourly.time parsed to epoch ms, and the two parallel series. -/
structure FetchPayload where
  times : List Int
  temps : List (Option Int)
  hums : List (Option Int)
deriving DecidableEq, Repr

/-- The weather_cache object store, keyed by the composite string key. -/
abbrev WCache := List (String × WRecord)

/-! ### ymd: the dateKey computation (d.toISOString().slice(0,10)) -/

/-- Civil calendar date (year, month, day) of a day count relative to
1970-01-01, days computed by floor division (UTC, as toISOString does). -/
def civilFromDays (z : Int) : Int × Nat × Nat :=
  let z' := z + 719468
  let era := Int.fdiv z' 146097
  let doe := (z' - era * 146097).toNat
  let yoe := (doe - doe / 1460 + doe / 36524 - doe / 146096) / 365
  let doy := doe - (365 * yoe + yoe / 4 - yoe / 100)
  let mp := (5 * doy + 2) / 153
  let d := doy - (153 * mp + 2) / 5 + 1
  let m := if mp < 10 then mp + 3 else mp - 9
  (Int.ofNat yoe + era * 400 + (if m ≤ 2 then 1 else 0), m, d)

/-- Two-digit zero padding. -/
def pad2 (n : Nat) : String :=
  if n < 10 then "0" ++ toString n else toString n

/-- Four-digit zero padding for the year (the program only meets years
0–9999, where toISOString prints exactly four digits). -/
def pad4 (y : Int) : String :=
  if 0 ≤ y ∧ y < 10 then "000" ++ toString y
  else if 0 ≤ y ∧ y < 100 then "00" ++ toString y
  else if 0 ≤ y ∧ y < 1000 then "0" ++ toString y
  else toString y

/-- ymd: the UTC calendar-day string of an epoch-ms timestamp, i.e.
new Date(ts).toISOString().slice(0,10). -/
def ymd (ts : Int) : String :=
  let c := civilFromDays (Int.fdiv ts 86400000)
  pad4 c.1 ++ "-" ++ pad2 c.2.1 ++ "-" ++ pad2 c.2.2

/-! ### Weather cache -/

/-- The composite weather_cache key, as in the template string
dateKey:lat:lon. -/
def weatherKey (dateKey : String) (lat lon : Int) : String :=
  dateKey ++ ":" ++ toString lat ++ ":" ++ toString lon

/-- All-numeric view of a series: some of the values when every entry is
a number, none as soon as one is not. -/
def optValues (xs : List (Option Int)) : Option (List Int) :=
  xs.foldr (fun x acc =>
    match x, acc with
    | some v, some l => some (v :: l)
    | _, _ => none) (some [])

/-- Math.min over a spread series; Infinity (empty) and NaN (non-numeric
entry) are both collapsed to none, which no claim observes. -/
def jsMin (xs : List (Option Int)) : Option Int :=
  (optValues xs).bind List.min?

/-- Math.max over a spread series, same conventions as jsMin. -/
def jsMax (xs : List (Option Int)) : Option Int :=
  (optValues xs).bind List.max?

/-- idb put into weather_cache: replace the record under its key, or
insert it. -/
def putWeather (cache : WCache) (r : WRecord) : WCache :=
  if (cache.lookup r.key).isSome then
    cache.map (fun p => if p.1 = r.key then (p.1, r) else p)
  else cache ++ [(r.key, r)]

/-- getDailyWeatherArrays. The JS guard cached?.hours && cached?.temps &&
cached?.hums is record presence: every record stored in weather_cache
carries the three array fields, and a JS array is truthy even when empty.
On a cache miss the fetch oracle is consulted; a transport failure or
!resp.ok is the thrown Falha ao buscar clima. fetchedAt is Date.now(),
passed in as now. -/
def getDailyWeatherArrays (now ts lat lon : Int) (cache : WCache)
    (fetchRes : Except Unit FetchPayload) :
    Except Unit (WRecord × WCache) :=
  let dateKey := ymd ts
  let key := weatherKey dateKey lat lon
  match cache.lookup key with
  | some cached => .ok (cached, cache)
  | none =>
    match fetchRes with
    | .error _ => .error ()
    | .ok p =>
      let r : WRecord :=
        { key := key, dateKey := dateKey, lat := lat, lon := lon
          hours := p.times, temps := p.temps, hums := p.hums
          minTemp := jsMin p.temps, maxTemp := jsMax p.temps
          minHum := jsMin p.hums, maxHum := jsMax p.hums
          fetchedAt := now }
      .ok (r, putWeather cache r)

/-- The index scan of nearestWeatherAtTs: walk the remaining hours with
the running best index and best absolute distance, taking a new index
only on a strictly smaller distance (so the earliest hour wins ties). -/
def bestIdxAux (ts : Int) : List Int → Nat → Nat → Int → Nat
  | [], _, bestIdx, _ => bestIdx
  | h :: rest, i, bestIdx, bestDiff =>
    if |h - ts| < bestDiff then bestIdxAux ts rest (i + 1) i (|h - ts|)
    else bestIdxAux ts rest (i + 1) bestIdx bestDiff

/-- The bestIdx computed by nearestWeatherAtTs (0 on an empty record,
where the code returns before using it). -/
def chosenIdx (record : WRecord) (ts : Int) : Nat :=
  match record.hours with
  | [] => 0
  | h :: rest => bestIdxAux ts rest 1 0 (|h - ts|)

/-- nearestWeatherAtTs: null when there are no hours; otherwise the temp
and hum at the best index, or null when either is not a number (an
out-of-range index reads undefined). -/
def nearestWeatherAtTs (record : WRecord) (ts : Int) : Option (Int × Int) :=
  match record.hours with
  | [] => none
  | _ :: _ =>
    match record.temps.getD (chosenIdx record ts) none,
          record.hums.getD (chosenIdx record ts) none with
    | some t, some h => some (t, h)
    | _, _ => none

/-- weatherForEventTs: resolve location (the oracle loc), fetch or reuse
the day's series, pick the nearest sample; null at any missing stage,
and a fetch throw propagates (the callers catch it). -/
def weatherForEventTs (now : Int) (loc : Option Loc) (cache : WCache)
    (fetchRes : Except Unit FetchPayload) (ts : Int) :
    Except Unit (Option Weather × WCache) :=
  match loc with
  | none => .ok (none, cache)
  | some l =>
    match getDailyWeatherArrays now ts l.lat l.lon cache fetchRes with
    | .error e => .error e
    | .ok (r, cache2) =>
      match nearestWeatherAtTs r ts with
      | none => .ok (none, cache2)
      | some (t, h) => .ok (some ⟨t, h, r.lat, r.lon⟩, cache2)

/-! ### Event store -/

/-- Whether a type triggers the weather lookup in addEvent / updateEvent. -/
def sleepBoundaryOrWake (t : EType) : Prop :=
  t = .sleep_start ∨ t = .sleep_end ∨ t = .wake

instance (t : EType) : Decidable (sleepBoundaryOrWake t) := by
  unfold sleepBoundaryOrWake; infer_instance

/-- idb put into the events store (keyPath id): replace the record with
the same id, or insert. The store is kept in insertion order; reads that
matter sort by ts afterwards. -/
def putEvent (store : List Event) (ev : Event) : List Event :=
  if store.any (fun e => decide (e.id = ev.id)) then
    store.map (fun e => if e.id = ev.id then ev else e)
  else store ++ [ev]

/-- The shared weather block of addEvent / updateEvent: for a boundary or
wake event, try weatherForEventTs and set ev.weather on a hit; a throw is
swallowed by the empty catch, leaving the event and the cache unchanged
(the fetch failed before any cache write). -/
def attachWeather (now : Int) (loc : Option Loc) (cache : WCache)
    (fetchRes : Except Unit FetchPayload) (ev : Event) : Event × WCache :=
  if sleepBoundaryOrWake ev.type then
    match weatherForEventTs now loc cache fetchRes ev.ts with
    | .ok (some w, cache2) => ({ ev with weather := some w }, cache2)
    | .ok (none, cache2) => (ev, cache2)
    | .error _ => (ev, cache)
  else (ev, cache)

/-- The record addEvent persists: the object literal
with id uuid() and the computed dateKey written first and the event
spread last, so an id or dateKey already on the event wins. -/
def addRecord (freshId : String) (ev : Event) : Event :=
  { ev with id := some (ev.id.getD freshId)
            dateKey := some (ev.dateKey.getD (ymd ev.ts)) }

/-- addEvent: best-effort weather attachment, then put of the addRecord
object. Nothing after the catch can throw in the model, so the write
always succeeds. (The trailing renderCycle call is UI, out of scope.) -/
def addEvent (now : Int) (loc : Option Loc)
    (fetchRes : Except Unit FetchPayload) (freshId : String)
    (store : List Event) (cache : WCache) (ev : Event) :
    Except Unit (List Event × WCache) :=
  let ec := attachWeather now loc cache fetchRes ev
  .ok (putEvent store (addRecord freshId ec.1), ec.2)

/-- updateEvent: best-effort weather attachment, then put of the event
spread first with dateKey recomputed last (so the fresh dateKey wins
here, unlike in addEvent). idb put is an upsert: an absent id inserts. -/
def updateEvent (now : Int) (loc : Option Loc)
    (fetchRes : Except Unit FetchPayload)
    (store : List Event) (cache : WCache) (ev : Event) :
    Except Unit (List Event × WCache) :=
  let ec := attachWeather now loc cache fetchRes ev
  .ok (putEvent store { ec.1 with dateKey := some (ymd ec.1.ts) }, ec.2)

/-- Insertion step of the ts sort used by the read helpers. -/
def insertByTs (e : Event) : List Event → List Event
  | [] => [e]
  | x :: xs => if e.ts ≤ x.ts then e :: x :: xs else x :: insertByTs e xs

/-- The out.sort((a,b) => a.ts - b.ts) of the read helpers, modelled as an
insertion sort (the claims only use the sorted output's elements). -/
def sortByTs : List Event → List Event
  | [] => []
  | x :: xs => insertByTs x (sortByTs xs)

/-- eventsBetween: the by_ts index range scan with inclusive bounds,
then the explicit ts sort. -/
def eventsBetween (store : List Event) (startTs endTs : Int) : List Event :=
  sortByTs (store.filter (fun e => decide (startTs ≤ e.ts ∧ e.ts ≤ endTs)))

/-! ### Cycle builder -/

/-- The mutable locals of buildCyclesFromEvents, plus a counter standing
in for the uuid() supply (uuids are opaque fresh strings; no claim
compares them). -/
structure BuildSt where
  phase : Phase
  startTs : Option Int
  startEventRef : Option Event
  cycles : List Cycle
  nextId : Nat
deriving DecidableEq, Repr

/-- The n-th fresh synthetic cycle id. -/
def freshCycleId (n : Nat) : String := "uuid-" ++ toString n

/-- One iteration of the scan loop of buildCyclesFromEvents. -/
def buildStep (st : BuildSt) (e : Event) : BuildSt :=
  match e.type with
  | .sleep_start =>
    match st.phase with
    | .DAY =>
      let st' :=
        if st.startTs.isSome then
          { st with
              cycles := st.cycles ++
                [⟨freshCycleId st.nextId, .DAY, st.startTs, some e.ts,
                  st.startEventRef, some e⟩]
              nextId := st.nextId + 1 }
        else st
      { st' with phase := .NIGHT, startTs := some e.ts,
                 startEventRef := some e }
    | .NIGHT =>
      { st with
          cycles := st.cycles ++
            [⟨freshCycleId st.nextId, .NIGHT, st.startTs, some e.ts,
              st.startEventRef, none⟩]
          nextId := st.nextId + 1, phase := .NIGHT, startTs := some e.ts,
          startEventRef := some e }
  | .sleep_end =>
    match st.phase with
    | .NIGHT =>
      { st with
          cycles := st.cycles ++
            [⟨freshCycleId st.nextId, .NIGHT, st.startTs, some e.ts,
              st.startEventRef, some e⟩]
          nextId := st.nextId + 1, phase := .DAY, startTs := some e.ts,
          startEventRef := some e }
    | .DAY =>
      { st with phase := .DAY, startTs := some e.ts, startEventRef := some e }
  | _ => st

/-- The seed phase of buildCyclesFromEvents: none means the no-events
else branch that emits the single virtual cycle. -/
def buildSeed (sortedEvents : List Event) :
    Option (Phase × Option Int × Option Event) :=
  let firstSleepStart := sortedEvents.find? (fun e => decide (e.type = .sleep_start))
  let firstSleepEnd := sortedEvents.find? (fun e => decide (e.type = .sleep_end))
  match firstSleepStart, firstSleepEnd with
  | some fs, none => some (.NIGHT, some fs.ts, some fs)
  | some fs, some fe =>
    if fs.ts < fe.ts then some (.NIGHT, some fs.ts, some fs)
    else some (.DAY, some fe.ts, some fe)
  | none, some fe => some (.DAY, some fe.ts, some fe)
  | none, none =>
    match sortedEvents with
    | e0 :: _ => some (.DAY, some e0.ts, none)
    | [] => none

/-- buildCyclesFromEvents: seed the phase, scan every event (the seed
event included), then push the final open cycle. Date.now() is the now
argument. -/
def buildCyclesFromEvents (now : Int) (sortedEvents : List Event) :
    List Cycle :=
  match buildSeed sortedEvents with
  | none => [⟨"virtual-now", .DAY, some now, none, none, none⟩]
  | some (ph, sts, sref) =>
    let st := sortedEvents.foldl buildStep ⟨ph, sts, sref, [], 0⟩
    st.cycles ++
      [⟨freshCycleId st.nextId, st.phase, st.startTs, none,
        st.startEventRef, none⟩]

/-! ### Cycle statistics -/

/-- The object calcCycleStats returns; the NIGHT-only and DAY-only
entries are Options (undefined when the other phase is selected). -/
structure CycleStats where
  waterMl : Int
  urinate : Nat
  wake : Option Nat
  foodCnt : Option Nat
  exercised : Option Bool
  glicemiaCount : Nat
  glicemiaLevels : List Int
  solCount : Nat
  solDuration : Int
  events : List Event
deriving DecidableEq, Repr

/-- calcCycleStats: range-query the store over the cycle span (endTs
falling back to now), then aggregate. A cycle with a null startTs would
make IDBKeyRange.bound throw, modelled as none; every cycle the builder
emits carries a start. -/
def calcCycleStats (now : Int) (store : List Event) (cycle : Cycle) :
    Option CycleStats :=
  match cycle.startTs with
  | none => none
  | some s =>
    let endTs := cycle.endTs.getD now
    let evs := eventsBetween store s endTs
    some
      { waterMl :=
          (evs.filter (fun e => decide (e.type = .water ∧ e.amount.isSome))).foldl
            (fun acc e => acc + e.amount.getD 0) 0
        urinate := (evs.filter (fun e => decide (e.type = .urinate))).length
        wake :=
          if cycle.type = .NIGHT then
            some (evs.filter (fun e => decide (e.type = .wake))).length
          else none
        foodCnt :=
          if cycle.type = .DAY then
            some (evs.filter (fun e => decide (e.type = .food))).length
          else none
        exercised :=
          if cycle.type = .DAY then
            some (evs.any (fun e => decide (e.type = .exercise)))
          else none
        glicemiaCount := (evs.filter (fun e => decide (e.type = .glicemia))).length
        glicemiaLevels :=
          (evs.filter (fun e => decide (e.type = .glicemia ∧ e.level.isSome))).filterMap
            (fun e => e.level)
        solCount := (evs.filter (fun e => decide (e.type = .sol))).length
        solDuration :=
          (evs.filter (fun e => decide (e.type = .sol ∧ e.duration.isSome))).foldl
            (fun acc e => acc + e.duration.getD 0) 0
        events := evs }

/-- A bare event of a given type and timestamp, as the quick-action
buttons create them. -/
def mkEv (t : EType) (ts : Int) : Event := { type := t, ts := ts }

/-! ### Helper lemmas -/

/-- attachWeather only ever touches the weather field of the event. -/
theorem attachWeather_fst (now : Int) (loc : Option Loc) (cache : WCache)
    (fetchRes : Except Unit FetchPayload) (ev : Event) :
    ∃ w, (attachWeather now loc cache fetchRes ev).1 = { ev with weather := w } := by
  unfold attachWeather
  by_cases hb : sleepBoundaryOrWake ev.type
  · rw [if_pos hb]
    rcases hres : weatherForEventTs now loc cache fetchRes ev.ts with e | p
    · exact ⟨ev.weather, rfl⟩
    · rcases p with ⟨w?, c2⟩
      cases w? with
      | none => exact ⟨ev.weather, rfl⟩
      | some w => exact ⟨some w, rfl⟩
  · rw [if_neg hb]
    exact ⟨ev.weather, rfl⟩

/-! ### C7 -/

/-- C7: on an empty event list, buildCyclesFromEvents returns exactly one
synthetic DAY cycle with id virtual-now, startTs = now, endTs = null and
no boundary-event references. -/
theorem buildCycles_empty (now : Int) :
    buildCyclesFromEvents now [] =
      [⟨"virtual-now", .DAY, some now, none, none, none⟩] := rfl

/-! ### C4 -/

/-- C4 counterexample: updateEvent on an event whose id is absent from
the store raises no NotFoundError (none exists in the code) and inserts
the event as a new record — idb put is an upsert. -/
theorem updateEvent_missing_id_inserts :
    updateEvent 0 none (.error ()) [] []
        { type := .water, ts := 0, id := some "nope" } =
      .ok ([{ type := .water, ts := 0, id := some "nope",
              dateKey := some "1970-01-01" }], []) := by rfl

/-- C4 amended: updateEvent is an upsert. When no stored event carries
the incoming id, the (possibly weather-enriched) event is appended as a
new record with dateKey recomputed from ts, and the write succeeds. -/
theorem updateEvent_upserts (now : Int) (loc : Option Loc)
    (fetchRes : Except Unit FetchPayload) (store : List Event)
    (cache : WCache) (ev : Event)
    (habs : ∀ e ∈ store, e.id ≠ ev.id) :
    updateEvent now loc fetchRes store cache ev =
      .ok (store ++ [{ (attachWeather now loc cache fetchRes ev).1 with
                        dateKey := some (ymd ev.ts) }],
           (attachWeather now loc cache fetchRes ev).2) := by
  obtain ⟨w, hw⟩ := attachWeather_fst now loc cache fetchRes ev
  have hany : store.any (fun e => decide (e.id = ev.id)) = false := by
    rw [List.any_eq_false]
    intro e he
    simp [habs e he]
  simp only [updateEvent, putEvent, hw]
  simp [hany]

/-- Concrete instance of updateEvent_upserts. -/
theorem updateEvent_upserts_witness :
    (∀ e ∈ ([] : List Event), e.id ≠ (mkEv .water 3).id) ∧
    updateEvent 0 none (.error ()) [] [] (mkEv .water 3) =
      .ok ([] ++ [{ (attachWeather 0 none [] (.error ()) (mkEv .water 3)).1 with
                     dateKey := some (ymd (mkEv .water 3).ts) }],
           (attachWeather 0 none [] (.error ()) (mkEv .water 3)).2) :=
  ⟨by simp, updateEvent_upserts 0 none (.error ()) [] [] (mkEv .water 3) (by simp)⟩

/-! ### C6 -/

/-- C6 counterexample: addEvent with an input that already carries a
dateKey persists that input dateKey unchanged (the event spread comes
last in the stored object literal), even though the day computed from
ts = 0 is 1970-01-01. -/
theorem addEvent_input_dateKey_wins :
    addEvent 0 none (.error ()) "fresh" [] []
        { type := .water, ts := 0, dateKey := some "2020-12-31" } =
      .ok ([{ type := .water, ts := 0, id := some "fresh",
              dateKey := some "2020-12-31" }], []) ∧
    ymd 0 ≠ "2020-12-31" := ⟨by rfl, by decide⟩

/-- C6 amended: the record addEvent persists carries
dateKey = the input's dateKey when the input already has one, and the
day string computed from ts otherwise (and likewise the input's id wins
over the fresh uuid). Inputs without a dateKey therefore satisfy the
consistency invariant; inputs with one keep it verbatim. -/
theorem addEvent_dateKey (now : Int) (loc : Option Loc)
    (fetchRes : Except Unit FetchPayload) (freshId : String)
    (store : List Event) (cache : WCache) (ev : Event) :
    addEvent now loc fetchRes freshId store cache ev =
      .ok (putEvent store
            (addRecord freshId (attachWeather now loc cache fetchRes ev).1),
           (attachWeather now loc cache fetchRes ev).2) ∧
    (addRecord freshId (attachWeather now loc cache fetchRes ev).1).dateKey =
      some (ev.dateKey.getD (ymd ev.ts)) ∧
    (addRecord freshId (attachWeather now loc cache fetchRes ev).1).id =
      some (ev.id.getD freshId) := by
  obtain ⟨w, hw⟩ := attachWeather_fst now loc cache fetchRes ev
  exact ⟨rfl, by rw [hw]; rfl, by rw [hw]; rfl⟩

/-! ### C5 -/

/-- C5 amended: getDailyWeatherArrays returns the cached record, leaving
the cache untouched and never consulting the fetch oracle, exactly when
the cache holds a record for the composite key — regardless of whether
its arrays are empty (a JS array is truthy even when empty, so the
non-emptiness the claim describes is not checked). In particular a key
that holds any record is never refetched. -/
theorem getDaily_cached (now ts lat lon : Int) (cache : WCache)
    (fetchRes : Except Unit FetchPayload) (r : WRecord)
    (hr : cache.lookup (weatherKey (ymd ts) lat lon) = some r) :
    getDailyWeatherArrays now ts lat lon cache fetchRes = .ok (r, cache) := by
  simp only [getDailyWeatherArrays, hr]

/-- The weather_cache record with present but empty series used to
refute the non-emptiness reading of the cache check. -/
def emptyArraysRec : WRecord :=
  { key := weatherKey (ymd 0) 10 20, dateKey := ymd 0, lat := 10, lon := 20
    hours := [], temps := [], hums := []
    minTemp := none, maxTemp := none, minHum := none, maxHum := none
    fetchedAt := 0 }

/-- C5 counterexample: a cached record whose hours / temps / hums are all
empty is returned as-is even while the fetch oracle would fail — no fetch
is attempted, contradicting that empty arrays are treated as incomplete. -/
theorem getDaily_empty_arrays_no_fetch :
    getDailyWeatherArrays 0 0 10 20 [(weatherKey (ymd 0) 10 20, emptyArraysRec)]
        (.error ()) =
      .ok (emptyArraysRec, [(weatherKey (ymd 0) 10 20, emptyArraysRec)]) := by
  rfl

/-- Concrete instance of getDaily_cached (on the empty-arrays record). -/
theorem getDaily_cached_witness :
    ([(weatherKey (ymd 0) 10 20, emptyArraysRec)] : WCache).lookup
        (weatherKey (ymd 0) 10 20) = some emptyArraysRec ∧
    getDailyWeatherArrays 5 0 10 20 [(weatherKey (ymd 0) 10 20, emptyArraysRec)]
        (.error ()) =
      .ok (emptyArraysRec, [(weatherKey (ymd 0) 10 20, emptyArraysRec)]) :=
  ⟨by rfl, getDaily_cached 5 0 10 20 _ (.error ()) emptyArraysRec (by rfl)⟩

/-! ### C2 -/

/-- C2 counterexample: on sleep_start at 1, sleep_end at 2, sleep_start
at 3 the builder does not return the three claimed cycles — the scan
loop revisits the seed sleep_start while the phase is already NIGHT and
closes a degenerate NIGHT cycle at 1 first. -/
theorem buildCycles_sss_not_three :
    ¬ ((buildCyclesFromEvents 100
          [mkEv .sleep_start 1, mkEv .sleep_end 2, mkEv .sleep_start 3]).map
        (fun c => (c.type, c.startTs, c.endTs)) =
      [(.NIGHT, some 1, some 2), (.DAY, some 2, some 3),
       (.NIGHT, some 3, none)]) := by decide

/-- C2 amended: for sleep_start at T1, sleep_end at T2, sleep_start at T3
(T1 < T2 < T3) the builder returns four cycles: a degenerate NIGHT cycle
from T1 to T1 with no end-event reference (the seed sleep_start is
re-scanned while already in NIGHT), then NIGHT T1 to T2 ended by the
sleep_end, DAY T2 to T3 ended by the sleep_start, and an open NIGHT
cycle from T3. -/
theorem buildCycles_sss (now T1 T2 T3 : Int) (h12 : T1 < T2) (h23 : T2 < T3) :
    (buildCyclesFromEvents now
        [mkEv .sleep_start T1, mkEv .sleep_end T2, mkEv .sleep_start T3]).map
      (fun c => (c.type, c.startTs, c.endTs, c.endEvent)) =
    [(.NIGHT, some T1, some T1, none),
     (.NIGHT, some T1, some T2, some (mkEv .sleep_end T2)),
     (.DAY, some T2, some T3, some (mkEv .sleep_start T3)),
     (.NIGHT, some T3, none, none)] := by
  simp [buildCyclesFromEvents, buildSeed, buildStep, mkEv, h12]

/-- Concrete instance of buildCycles_sss. -/
theorem buildCycles_sss_witness :
    (1 : Int) < 2 ∧ (2 : Int) < 3 ∧
    (buildCyclesFromEvents 100
        [mkEv .sleep_start 1, mkEv .sleep_end 2, mkEv .sleep_start 3]).map
      (fun c => (c.type, c.startTs, c.endTs, c.endEvent)) =
    [(.NIGHT, some 1, some 1, none),
     (.NIGHT, some 1, some 2, some (mkEv .sleep_end 2)),
     (.DAY, some 2, some 3, some (mkEv .sleep_start 3)),
     (.NIGHT, some 3, none, none)] :=
  ⟨by decide, by decide, buildCycles_sss 100 1 2 3 (by decide) (by decide)⟩

/-! ### C3 -/

/-- C3 counterexample: on sleep_start at 1, sleep_start at 2 the first
NIGHT cycle of the result does not close at 2 — it is the degenerate
seed cycle closed at 1. -/
theorem buildCycles_ss_first_night_not_T2 :
    ((buildCyclesFromEvents 100 [mkEv .sleep_start 1, mkEv .sleep_start 2]).find?
        (fun c => decide (c.type = .NIGHT))).map Cycle.endTs ≠
      some (some 2) := by decide

/-- C3 amended: for sleep_start at T1 then sleep_start at T2 with no
intervening sleep_end (T1 < T2) the builder returns three NIGHT cycles:
a degenerate one from T1 to T1 (the re-scanned seed event) with no
end-event reference, then one from T1 closed at T2 — again with no
end-event reference, as the claim describes — and a new open NIGHT
cycle from T2. -/
theorem buildCycles_ss_ss (now T1 T2 : Int) (h12 : T1 < T2) :
    (buildCyclesFromEvents now [mkEv .sleep_start T1, mkEv .sleep_start T2]).map
      (fun c => (c.type, c.startTs, c.endTs, c.endEvent)) =
    [(.NIGHT, some T1, some T1, none),
     (.NIGHT, some T1, some T2, none),
     (.NIGHT, some T2, none, none)] := by
  simp [buildCyclesFromEvents, buildSeed, buildStep, mkEv]

/-- Concrete instance of buildCycles_ss_ss. -/
theorem buildCycles_ss_ss_witness :
    (1 : Int) < 2 ∧
    (buildCyclesFromEvents 100 [mkEv .sleep_start 1, mkEv .sleep_start 2]).map
      (fun c => (c.type, c.startTs, c.endTs, c.endEvent)) =
    [(.NIGHT, some 1, some 1, none),
     (.NIGHT, some 1, some 2, none),
     (.NIGHT, some 2, none, none)] :=
  ⟨by decide, buildCycles_ss_ss 100 1 2 (by decide)⟩

/-! ### C8 -/

/-- C8: when the weather lookup for a sleep_start / sleep_end / wake
event fails at any stage — the lookup either throws (fetch failure) or
resolves to null (no location, or no usable nearest sample) — both
addEvent and updateEvent still persist the event, with no weather field,
and the write reports no error. -/
theorem write_swallows_weather_failure (now : Int) (loc : Option Loc)
    (fetchRes : Except Unit FetchPayload) (freshId : String)
    (store : List Event) (cache : WCache) (ev : Event)
    (hty : sleepBoundaryOrWake ev.type)
    (hw : ev.weather = none)
    (hfail : weatherForEventTs now loc cache fetchRes ev.ts = .error () ∨
             ∃ c2, weatherForEventTs now loc cache fetchRes ev.ts = .ok (none, c2)) :
    (∃ c2, addEvent now loc fetchRes freshId store cache ev =
        .ok (putEvent store (addRecord freshId ev), c2)) ∧
    (addRecord freshId ev).weather = none ∧
    (∃ c2, updateEvent now loc fetchRes store cache ev =
        .ok (putEvent store { ev with dateKey := some (ymd ev.ts) }, c2)) ∧
    ({ ev with dateKey := some (ymd ev.ts) } : Event).weather = none := by
  have key : (attachWeather now loc cache fetchRes ev).1 = ev := by
    unfold attachWeather
    rw [if_pos hty]
    rcases hfail with h | ⟨c2, h⟩ <;> rw [h]
  refine ⟨⟨(attachWeather now loc cache fetchRes ev).2, ?_⟩, hw,
          ⟨(attachWeather now loc cache fetchRes ev).2, ?_⟩, hw⟩
  · show Except.ok (putEvent store
        (addRecord freshId (attachWeather now loc cache fetchRes ev).1), _) = _
    rw [key]
  · show Except.ok (putEvent store
        { (attachWeather now loc cache fetchRes ev).1 with
            dateKey := some (ymd (attachWeather now loc cache fetchRes ev).1.ts) }, _) = _
    rw [key]

/-- Concrete instance of write_swallows_weather_failure: location denied,
fetch failing, a bare sleep_start event. -/
theorem write_swallows_weather_failure_witness :
    sleepBoundaryOrWake (mkEv .sleep_start 5).type ∧
    (mkEv .sleep_start 5).weather = none ∧
    (weatherForEventTs 0 none [] (.error ()) (mkEv .sleep_start 5).ts = .error () ∨
     ∃ c2, weatherForEventTs 0 none [] (.error ()) (mkEv .sleep_start 5).ts =
        .ok (none, c2)) ∧
    ((∃ c2, addEvent 0 none (.error ()) "f" [] [] (mkEv .sleep_start 5) =
        .ok (putEvent [] (addRecord "f" (mkEv .sleep_start 5)), c2)) ∧
     (addRecord "f" (mkEv .sleep_start 5)).weather = none ∧
     (∃ c2, updateEvent 0 none (.error ()) [] [] (mkEv .sleep_start 5) =
        .ok (putEvent []
          { mkEv .sleep_start 5 with
              dateKey := some (ymd (mkEv .sleep_start 5).ts) }, c2)) ∧
     ({ mkEv .sleep_start 5 with
          dateKey := some (ymd (mkEv .sleep_start 5).ts) } : Event).weather = none) :=
  ⟨by decide, rfl, Or.inr ⟨[], rfl⟩,
   write_swallows_weather_failure 0 none (.error ()) "f" [] [] (mkEv .sleep_start 5)
     (by decide) rfl (Or.inr ⟨[], rfl⟩)⟩

/-! ### C9 -/

/-- Membership is preserved by a single sorted insertion. -/
theorem mem_insertByTs (a e : Event) (l : List Event) :
    a ∈ insertByTs e l ↔ a = e ∨ a ∈ l := by
  induction l with
  | nil => simp [insertByTs]
  | cons x xs ih =>
    unfold insertByTs
    by_cases h : e.ts ≤ x.ts
    · simp [h]
    · simp only [if_neg h, List.mem_cons, ih]
      tauto

/-- Membership is preserved by the ts sort. -/
theorem mem_sortByTs (a : Event) (l : List Event) :
    a ∈ sortByTs l ↔ a ∈ l := by
  induction l with
  | nil => simp [sortByTs]
  | cons x xs ih => simp [sortByTs, mem_insertByTs, ih]

/-- eventsBetween returns exactly the stored events inside the inclusive
range. -/
theorem mem_eventsBetween (e : Event) (store : List Event) (s t : Int) :
    e ∈ eventsBetween store s t ↔ e ∈ store ∧ s ≤ e.ts ∧ e.ts ≤ t := by
  simp [eventsBetween, mem_sortByTs, List.mem_filter]

/-- C9: calcCycleStats reports the wake count (the number of wake events
in the cycle span) exactly when the cycle is NIGHT, and reports foodCnt
and exercised exactly when the cycle is DAY, where exercised is true iff
some stored event of type exercise lies in the span (startTs up to endTs,
falling back to now when the cycle is open). -/
theorem calcCycleStats_fields (now : Int) (store : List Event)
    (cycle : Cycle) (s : Int) (hstart : cycle.startTs = some s) :
    ∃ stats, calcCycleStats now store cycle = some stats ∧
      (stats.wake.isSome ↔ cycle.type = .NIGHT) ∧
      (stats.foodCnt.isSome ↔ cycle.type = .DAY) ∧
      (stats.exercised.isSome ↔ cycle.type = .DAY) ∧
      (cycle.type = .NIGHT →
        stats.wake = some ((eventsBetween store s (cycle.endTs.getD now)).filter
          (fun e => decide (e.type = .wake))).length) ∧
      (cycle.type = .DAY →
        (stats.exercised = some true ↔
          ∃ e ∈ store, e.type = .exercise ∧ s ≤ e.ts ∧
            e.ts ≤ cycle.endTs.getD now)) := by
  unfold calcCycleStats
  rw [hstart]
  refine ⟨_, rfl, ?_, ?_, ?_, ?_, ?_⟩ <;>
    cases hty : cycle.type <;>
      simp [hty, List.any_eq_true, mem_eventsBetween] <;> tauto

/-- Concrete instance of calcCycleStats_fields. -/
theorem calcCycleStats_fields_witness :
    (⟨"c", .NIGHT, some 0, none, none, none⟩ : Cycle).startTs = some 0 ∧
    ∃ stats, calcCycleStats 10 [mkEv .wake 1] ⟨"c", .NIGHT, some 0, none, none, none⟩ =
        some stats ∧
      (stats.wake.isSome ↔ (⟨"c", .NIGHT, some 0, none, none, none⟩ : Cycle).type = .NIGHT) ∧
      (stats.foodCnt.isSome ↔ (⟨"c", .NIGHT, some 0, none, none, none⟩ : Cycle).type = .DAY) ∧
      (stats.exercised.isSome ↔ (⟨"c", .NIGHT, some 0, none, none, none⟩ : Cycle).type = .DAY) ∧
      ((⟨"c", .NIGHT, some 0, none, none, none⟩ : Cycle).type = .NIGHT →
        stats.wake = some ((eventsBetween [mkEv .wake 1] 0
            ((⟨"c", .NIGHT, some 0, none, none, none⟩ : Cycle).endTs.getD 10)).filter
          (fun e => decide (e.type = .wake))).length) ∧
      ((⟨"c", .NIGHT, some 0, none, none, none⟩ : Cycle).type = .DAY →
        (stats.exercised = some true ↔
          ∃ e ∈ [mkEv .wake 1], e.type = .exercise ∧ 0 ≤ e.ts ∧
            e.ts ≤ (⟨"c", .NIGHT, some 0, none, none, none⟩ : Cycle).endTs.getD 10)) :=
  ⟨rfl, calcCycleStats_fields 10 [mkEv .wake 1] ⟨"c", .NIGHT, some 0, none, none, none⟩ 0 rfl⟩

/-! ### C10 -/

/-- Loop invariant of the nearestWeatherAtTs scan: given that b is the
least index minimizing the distance among the first i entries of hs and
that the suffix rest mirrors hs from position i, the scan result is the
least index minimizing the distance over all of hs. -/
theorem bestIdxAux_spec (ts : Int) :
    ∀ (rest hs : List Int) (i b : Nat) (d : Int),
      hs.length = i + rest.length →
      (∀ k, k < rest.length → hs.getD (i + k) 0 = rest.getD k 0) →
      b < i →
      d = |hs.getD b 0 - ts| →
      (∀ j, j < i → d ≤ |hs.getD j 0 - ts|) →
      (∀ j, j < b → d < |hs.getD j 0 - ts|) →
      bestIdxAux ts rest i b d < hs.length ∧
      (∀ j, j < hs.length →
        |hs.getD (bestIdxAux ts rest i b d) 0 - ts| ≤ |hs.getD j 0 - ts|) ∧
      (∀ j, j < bestIdxAux ts rest i b d →
        |hs.getD (bestIdxAux ts rest i b d) 0 - ts| < |hs.getD j 0 - ts|) := by
  intro rest
  induction rest with
  | nil =>
    intro hs i b d hlen hidx hbi hd hmin hstrict
    simp only [bestIdxAux]
    simp only [List.length_nil, Nat.add_zero] at hlen
    refine ⟨by omega, ?_, ?_⟩
    · intro j hj
      rw [← hd]
      exact hmin j (by omega)
    · intro j hj
      rw [← hd]
      exact hstrict j hj
  | cons h rest ih =>
    intro hs i b d hlen hidx hbi hd hmin hstrict
    simp only [bestIdxAux]
    have hh : hs.getD i 0 = h := by
      have := hidx 0 (by simp)
      simpa using this
    have hidx' : ∀ k, k < rest.length → hs.getD (i + 1 + k) 0 = rest.getD k 0 := by
      intro k hk
      have heq : i + 1 + k = i + (k + 1) := by omega
      rw [heq]
      have := hidx (k + 1) (by simpa using Nat.succ_lt_succ hk)
      simpa using this
    have hlen' : hs.length = i + 1 + rest.length := by
      simp only [List.length_cons] at hlen
      omega
    by_cases hc : |h - ts| < d
    · rw [if_pos hc]
      apply ih hs (i + 1) i (|h - ts|) hlen' hidx' (by omega) (by rw [hh])
      · intro j hj
        rcases Nat.lt_succ_iff_lt_or_eq.mp hj with hj' | hj'
        · exact le_trans (le_of_lt hc) (hmin j hj')
        · subst hj'
          rw [hh]
      · intro j hj
        exact lt_of_lt_of_le hc (hmin j hj)
    · rw [if_neg hc]
      apply ih hs (i + 1) b d hlen' hidx' (by omega) hd
      · intro j hj
        rcases Nat.lt_succ_iff_lt_or_eq.mp hj with hj' | hj'
        · exact hmin j hj'
        · subst hj'
          rw [hh]
          exact le_of_not_lt hc
      · exact hstrict

/-- C10: for a record with non-empty hours, nearestWeatherAtTs reads the
sample at the least index minimizing the absolute distance between the
hour and ts (a distance tie keeps the earlier hour), and it returns null
exactly when the temp or the hum read at that index is not a number (an
index beyond a shorter series reads undefined); otherwise it returns
exactly that temp and hum pair. -/
theorem nearestWeather_spec (record : WRecord) (ts : Int)
    (hne : record.hours ≠ []) :
    chosenIdx record ts < record.hours.length ∧
    (∀ j, j < record.hours.length →
      |record.hours.getD (chosenIdx record ts) 0 - ts| ≤
        |record.hours.getD j 0 - ts|) ∧
    (∀ j, j < chosenIdx record ts →
      |record.hours.getD (chosenIdx record ts) 0 - ts| <
        |record.hours.getD j 0 - ts|) ∧
    (nearestWeatherAtTs record ts = none ↔
      record.temps.getD (chosenIdx record ts) none = none ∨
      record.hums.getD (chosenIdx record ts) none = none) ∧
    (∀ t h, record.temps.getD (chosenIdx record ts) none = some t →
      record.hums.getD (chosenIdx record ts) none = some h →
      nearestWeatherAtTs record ts = some (t, h)) := by
  obtain ⟨h0, rest, hhrs⟩ : ∃ h0 rest, record.hours = h0 :: rest := by
    cases hx : record.hours with
    | nil => exact absurd hx hne
    | cons a l => exact ⟨a, l, rfl⟩
  have hidx0 : chosenIdx record ts = bestIdxAux ts rest 1 0 (|h0 - ts|) := by
    unfold chosenIdx
    rw [hhrs]
  have hspec := bestIdxAux_spec ts rest record.hours 1 0 (|h0 - ts|)
    (by rw [hhrs]; simp [Nat.add_comm])
    (by intro k hk; rw [hhrs]; simp [Nat.add_comm 1 k])
    (by omega)
    (by rw [hhrs]; rfl)
    (by intro j hj
        have : j = 0 := by omega
        subst this
        rw [hhrs]
        simp)
    (by intro j hj; omega)
  rw [← hidx0] at hspec
  obtain ⟨hlt, hmin, hleast⟩ := hspec
  refine ⟨hlt, hmin, hleast, ?_, ?_⟩
  · unfold nearestWeatherAtTs
    rw [hhrs]
    rcases htv : record.temps.getD (chosenIdx record ts) none with _ | t <;>
      rcases hhv : record.hums.getD (chosenIdx record ts) none with _ | h <;>
        simp_all [hidx0]
  · intro t h htv hhv
    unfold nearestWeatherAtTs
    rw [hhrs]
    simp only [htv, hhv]

/-- A two-sample record whose later hour is nearest to 160 but carries a
non-numeric hum. -/
def sampleRec : WRecord :=
  { key := "", dateKey := "", lat := 0, lon := 0, hours := [100, 200]
    temps := [some 7, some 8], hums := [some 50, none]
    minTemp := none, maxTemp := none, minHum := none, maxHum := none
    fetchedAt := 0 }

/-- Concrete instance of nearestWeather_spec on sampleRec at ts = 160. -/
theorem nearestWeather_spec_witness :
    sampleRec.hours ≠ [] ∧
    (chosenIdx sampleRec 160 < sampleRec.hours.length ∧
     (∀ j, j < sampleRec.hours.length →
       |sampleRec.hours.getD (chosenIdx sampleRec 160) 0 - 160| ≤
         |sampleRec.hours.getD j 0 - 160|) ∧
     (∀ j, j < chosenIdx sampleRec 160 →
       |sampleRec.hours.getD (chosenIdx sampleRec 160) 0 - 160| <
         |sampleRec.hours.getD j 0 - 160|) ∧
     (nearestWeatherAtTs sampleRec 160 = none ↔
       sampleRec.temps.getD (chosenIdx sampleRec 160) none = none ∨
       sampleRec.hums.getD (chosenIdx sampleRec 160) none = none) ∧
     (∀ t h, sampleRec.temps.getD (chosenIdx sampleRec 160) none = some t →
       sampleRec.hums.getD (chosenIdx sampleRec 160) none = some h →
       nearestWeatherAtTs sampleRec 160 = some (t, h))) :=
  ⟨by decide, nearestWeather_spec sampleRec 160 (by decide)⟩

/-! ### C1 -/

/-- Weak adjacency between cycles: the earlier one ends no later than
the later one starts (both ends being present). -/
def cycLe (a b : Cycle) : Prop :=
  ∃ x y, a.endTs = some x ∧ b.startTs = some y ∧ x ≤ y

/-- Invariant of the scan loop: every cycle pushed so far carries a
numeric endTs, adjacent pushed cycles are weakly ordered, and the last
push ends no later than the pending segment start v. -/
def linksLe : List Cycle → Int → Prop
  | [], _ => True
  | c :: rest, v =>
    (∃ x, c.endTs = some x ∧
      (match rest with
       | [] => x ≤ v
       | d :: _ => ∃ y, d.startTs = some y ∧ x ≤ y)) ∧
    linksLe rest v

instance : Inhabited Cycle := ⟨⟨"", .DAY, none, none, none, none⟩⟩

theorem linksLe_append (l : List Cycle) (v : Int) (h : linksLe l v)
    (c : Cycle) (hst : c.startTs = some v) (t : Int)
    (hend : c.endTs = some t) : linksLe (l ++ [c]) t := by
  induction l with
  | nil => exact ⟨⟨t, hend, le_refl t⟩, trivial⟩
  | cons a l ih =>
    obtain ⟨⟨x, hx, hjun⟩, hrest⟩ := h
    refine ⟨⟨x, hx, ?_⟩, ih hrest⟩
    cases l with
    | nil => exact ⟨v, hst, hjun⟩
    | cons d l' => exact hjun

theorem linksLe_mono (l : List Cycle) (v v' : Int) (h : linksLe l v)
    (hvv : v ≤ v') : linksLe l v' := by
  induction l with
  | nil => trivial
  | cons a l ih =>
    obtain ⟨⟨x, hx, hjun⟩, hrest⟩ := h
    refine ⟨⟨x, hx, ?_⟩, ih hrest⟩
    cases l with
    | nil => exact le_trans hjun hvv
    | cons d l' => exact hjun

theorem linksLe_endSome (l : List Cycle) (v : Int) (h : linksLe l v) :
    ∀ c ∈ l, c.endTs.isSome = true := by
  induction l with
  | nil => simp
  | cons a l ih =>
    obtain ⟨⟨x, hx, _⟩, hrest⟩ := h
    intro c hc
    rcases List.mem_cons.mp hc with rfl | hc'
    · rw [hx]; rfl
    · exact ih hrest c hc'

theorem linksLe_chain (l : List Cycle) (v : Int) (h : linksLe l v)
    (c : Cycle) (hst : c.startTs = some v) :
    List.Chain' cycLe (l ++ [c]) := by
  induction l with
  | nil => simp
  | cons a l ih =>
    obtain ⟨⟨x, hx, hjun⟩, hrest⟩ := h
    have hch := ih hrest
    cases l with
    | nil =>
      simp only [List.nil_append] at hch
      exact List.Chain'.cons ⟨x, v, hx, hst, hjun⟩ hch
    | cons d l' =>
      obtain ⟨y, hy, hxy⟩ := hjun
      exact List.Chain'.cons ⟨x, y, hx, hy, hxy⟩ hch

/-- The event types that move the phase machine. -/
def boundTy (t : EType) : Prop := t = .sleep_start ∨ t = .sleep_end

instance (t : EType) : Decidable (boundTy t) := by
  unfold boundTy; infer_instance

/-- Scan induction: starting from a state whose pending segment starts
at v with weakly ordered pushed cycles, and with every remaining
boundary event no earlier than v, the ts-sorted scan keeps the invariant
and ends with some pending start v'. -/
theorem scan_inv : ∀ (l : List Event) (st : BuildSt) (v : Int),
    st.startTs = some v →
    linksLe st.cycles v →
    (∀ e ∈ l, boundTy e.type → v ≤ e.ts) →
    List.Pairwise (fun a b : Event => a.ts ≤ b.ts) l →
    ∃ v', (l.foldl buildStep st).startTs = some v' ∧
      linksLe (l.foldl buildStep st).cycles v' := by
  intro l
  induction l with
  | nil =>
    intro st v h1 h2 _ _
    exact ⟨v, h1, h2⟩
  | cons e l ih =>
    intro st v h1 h2 hbnd hpw
    rw [List.foldl_cons]
    obtain ⟨hhead, hpw'⟩ := List.pairwise_cons.mp hpw
    by_cases hb : boundTy e.type
    · have hve : v ≤ e.ts := hbnd e (List.mem_cons_self e l) hb
      have hrem : ∀ e' ∈ l, boundTy e'.type → e.ts ≤ e'.ts :=
        fun e' he' _ => hhead e' he'
      have hsome : st.startTs.isSome = true := by rw [h1]; rfl
      rcases hb with hss | hse
      · cases hph : st.phase with
        | DAY =>
          refine ih (buildStep st e) e.ts ?_ ?_ hrem hpw'
          · simp [buildStep, hss, hph, hsome]
          · have : (buildStep st e).cycles = st.cycles ++
                [⟨freshCycleId st.nextId, .DAY, st.startTs, some e.ts,
                  st.startEventRef, some e⟩] := by
              simp [buildStep, hss, hph, hsome]
            rw [this]
            exact linksLe_append st.cycles v h2 _ (by simpa using h1) e.ts rfl
        | NIGHT =>
          refine ih (buildStep st e) e.ts ?_ ?_ hrem hpw'
          · simp [buildStep, hss, hph]
          · have : (buildStep st e).cycles = st.cycles ++
                [⟨freshCycleId st.nextId, .NIGHT, st.startTs, some e.ts,
                  st.startEventRef, none⟩] := by
              simp [buildStep, hss, hph]
            rw [this]
            exact linksLe_append st.cycles v h2 _ (by simpa using h1) e.ts rfl
      · cases hph : st.phase with
        | NIGHT =>
          refine ih (buildStep st e) e.ts ?_ ?_ hrem hpw'
          · simp [buildStep, hse, hph]
          · have : (buildStep st e).cycles = st.cycles ++
                [⟨freshCycleId st.nextId, .NIGHT, st.startTs, some e.ts,
                  st.startEventRef, some e⟩] := by
              simp [buildStep, hse, hph]
            rw [this]
            exact linksLe_append st.cycles v h2 _ (by simpa using h1) e.ts rfl
        | DAY =>
          refine ih (buildStep st e) e.ts ?_ ?_ hrem hpw'
          · simp [buildStep, hse, hph]
          · have : (buildStep st e).cycles = st.cycles := by
              simp [buildStep, hse, hph]
            rw [this]
            exact linksLe_mono st.cycles v e.ts h2 hve
    · have hsame : buildStep st e = st := by
        unfold boundTy at hb
        push_neg at hb
        cases hty : e.type <;> simp [buildStep, hty] <;>
          simp [hty] at hb
      rw [hsame]
      exact ih st v h1 h2 (fun e' he' hb' => hbnd e' (List.mem_cons_of_mem e he') hb') hpw'

/-- In a ts-sorted list the first event matching p is no later than any
event matching p. -/
theorem find_min_ts (p : Event → Bool) : ∀ (l : List Event),
    List.Pairwise (fun a b : Event => a.ts ≤ b.ts) l →
    ∀ a, l.find? p = some a →
    ∀ e ∈ l, p e = true → a.ts ≤ e.ts := by
  intro l
  induction l with
  | nil => simp
  | cons x t ih =>
    intro hpw a hfind e he hpe
    obtain ⟨hhead, hpw'⟩ := List.pairwise_cons.mp hpw
    by_cases hpx : p x = true
    · rw [List.find?_cons_of_pos _ hpx] at hfind
      injection hfind with hax
      subst hax
      rcases List.mem_cons.mp he with rfl | he'
      · exact le_refl _
      · exact hhead e he'
    · rw [List.find?_cons_of_neg _ hpx] at hfind
      rcases List.mem_cons.mp he with rfl | he'
      · exact absurd hpe hpx
      · exact ih hpw' a hfind e he' hpe

/-- The seed of the scan starts no later than every boundary event. -/
theorem seed_bound (events : List Event)
    (hpw : List.Pairwise (fun a b : Event => a.ts ≤ b.ts) events)
    (ph : Phase) (sts : Option Int) (sref : Option Event)
    (hseed : buildSeed events = some (ph, sts, sref)) :
    ∃ v0, sts = some v0 ∧ ∀ e ∈ events, boundTy e.type → v0 ≤ e.ts := by
  unfold buildSeed at hseed
  cases hfs : events.find? (fun e => decide (e.type = .sleep_start)) with
  | some fs =>
    cases hfe : events.find? (fun e => decide (e.type = .sleep_end)) with
    | none =>
      simp only [hfs, hfe] at hseed
      refine ⟨fs.ts, by simp_all, ?_⟩
      intro e he hb
      rcases hb with hb | hb
      · exact find_min_ts _ events hpw fs hfs e he (by simp [hb])
      · have := List.find?_eq_none.mp hfe e he
        simp [hb] at this
    | some fe =>
      simp only [hfs, hfe] at hseed
      by_cases hlt : fs.ts < fe.ts
      · rw [if_pos hlt] at hseed
        refine ⟨fs.ts, by simp_all, ?_⟩
        intro e he hb
        rcases hb with hb | hb
        · exact find_min_ts _ events hpw fs hfs e he (by simp [hb])
        · exact le_trans (le_of_lt hlt)
            (find_min_ts _ events hpw fe hfe e he (by simp [hb]))
      · rw [if_neg hlt] at hseed
        refine ⟨fe.ts, by simp_all, ?_⟩
        intro e he hb
        rcases hb with hb | hb
        · exact le_trans (le_of_not_lt hlt)
            (find_min_ts _ events hpw fs hfs e he (by simp [hb]))
        · exact find_min_ts _ events hpw fe hfe e he (by simp [hb])
  | none =>
    cases hfe : events.find? (fun e => decide (e.type = .sleep_end)) with
    | some fe =>
      simp only [hfs, hfe] at hseed
      refine ⟨fe.ts, by simp_all, ?_⟩
      intro e he hb
      rcases hb with hb | hb
      · have := List.find?_eq_none.mp hfs e he
        simp [hb] at this
      · exact find_min_ts _ events hpw fe hfe e he (by simp [hb])
    | none =>
      simp only [hfs, hfe] at hseed
      cases events with
      | nil => simp at hseed
      | cons e0 tl =>
        simp only at hseed
        refine ⟨e0.ts, by simp_all, ?_⟩
        intro e he hb
        rcases hb with hb | hb
        · have := List.find?_eq_none.mp hfs e he
          simp [hb] at this
        · have := List.find?_eq_none.mp hfe e he
          simp [hb] at this

/-- Appending one open cycle to a list of closed ones: exactly the last
position carries a null endTs. -/
theorem append_last_none (l : List Cycle) (c : Cycle)
    (hall : ∀ x ∈ l, x.endTs.isSome = true) (hc : c.endTs = none) :
    ∀ i, i < (l ++ [c]).length →
      (((l ++ [c]).getD i default).endTs = none ↔
        i = (l ++ [c]).length - 1) := by
  induction l with
  | nil =>
    intro i h
    have hi : i = 0 := by
      simp only [List.nil_append, List.length_singleton] at h
      omega
    subst hi
    simp [hc]
  | cons a l ih =>
    intro i h
    cases i with
    | zero =>
      have hne : a.endTs ≠ none :=
        Option.isSome_iff_ne_none.mp (hall a (List.mem_cons_self a l))
      have hlen : (l ++ [c]).length = l.length + 1 := by simp
      simp only [List.cons_append, List.getD_cons_zero, List.length_cons, hlen]
      constructor
      · intro hx
        exact absurd hx hne
      · intro hx
        omega
    | succ j =>
      have hj : j < (l ++ [c]).length := by
        simp only [List.cons_append, List.length_cons] at h
        omega
      have hstep := ih (fun x hx => hall x (List.mem_cons_of_mem a hx)) j hj
      have hlen : (l ++ [c]).length = l.length + 1 := by simp
      simp only [List.cons_append, List.getD_cons_succ, List.length_cons]
      rw [hstep]
      omega

/-- C1 counterexample: the first three events are sorted by ts, yet the
builder leaves a gap — a sleep_end scanned during DAY silently restarts
the segment at its own ts without closing the running cycle, so the
NIGHT cycle ending at 2 is followed by a DAY cycle starting at 3. -/
theorem buildCycles_gap :
    List.Pairwise (fun a b : Event => a.ts ≤ b.ts)
      [mkEv .sleep_start 1, mkEv .sleep_end 2, mkEv .sleep_end 3] ∧
    ¬ ∀ i, i + 1 < (buildCyclesFromEvents 100
          [mkEv .sleep_start 1, mkEv .sleep_end 2, mkEv .sleep_end 3]).length →
        ((buildCyclesFromEvents 100
          [mkEv .sleep_start 1, mkEv .sleep_end 2, mkEv .sleep_end 3]).getD i
            default).endTs =
        ((buildCyclesFromEvents 100
          [mkEv .sleep_start 1, mkEv .sleep_end 2, mkEv .sleep_end 3]).getD (i + 1)
            default).startTs :=
  ⟨by decide, fun hcontra => absurd (hcontra 1 (by decide)) (by decide)⟩

/-- C1 amended: for events sorted ascending by ts the cycle list is
non-empty and chronologically ordered — each cycle ends no later than
the next one starts (equality everywhere except after a stray sleep_end
scanned during DAY, which may leave a gap) — and the last cycle, and
only the last, has endTs = null. -/
theorem buildCycles_ordered_partition (now : Int) (events : List Event)
    (hs : List.Pairwise (fun a b : Event => a.ts ≤ b.ts) events) :
    buildCyclesFromEvents now events ≠ [] ∧
    List.Chain' cycLe (buildCyclesFromEvents now events) ∧
    ∀ i, i < (buildCyclesFromEvents now events).length →
      (((buildCyclesFromEvents now events).getD i default).endTs = none ↔
        i = (buildCyclesFromEvents now events).length - 1) := by
  unfold buildCyclesFromEvents
  cases hseed : buildSeed events with
  | none =>
    refine ⟨by simp, by simp, ?_⟩
    intro i h
    have hi : i = 0 := by
      simp only [List.length_singleton] at h
      omega
    subst hi
    simp
  | some trip =>
    obtain ⟨ph, sts, sref⟩ := trip
    obtain ⟨v0, hv0, hbnd⟩ := seed_bound events hs ph sts sref hseed
    obtain ⟨v', hst', hlinks⟩ :=
      scan_inv events ⟨ph, sts, sref, [], 0⟩ v0 (by simpa using hv0)
        (by constructor) hbnd hs
    refine ⟨by simp, ?_, ?_⟩
    · exact linksLe_chain _ v' hlinks _ (by simpa using hst')
    · exact append_last_none _ _ (linksLe_endSome _ v' hlinks) rfl

/-- Concrete instance of buildCycles_ordered_partition. -/
theorem buildCycles_ordered_partition_witness :
    List.Pairwise (fun a b : Event => a.ts ≤ b.ts)
      [mkEv .sleep_start 1, mkEv .sleep_end 2] ∧
    (buildCyclesFromEvents 9 [mkEv .sleep_start 1, mkEv .sleep_end 2] ≠ [] ∧
     List.Chain' cycLe (buildCyclesFromEvents 9 [mkEv .sleep_start 1, mkEv .sleep_end 2]) ∧
     ∀ i, i < (buildCyclesFromEvents 9 [mkEv .sleep_start 1, mkEv .sleep_end 2]).length →
       (((buildCyclesFromEvents 9 [mkEv .sleep_start 1, mkEv .sleep_end 2]).getD i
           default).endTs = none ↔
         i = (buildCyclesFromEvents 9 [mkEv .sleep_start 1, mkEv .sleep_end 2]).length - 1)) :=
  ⟨by decide, buildCycles_ordered_partition 9 [mkEv .sleep_start 1, mkEv .sleep_end 2] (by decide)⟩

end HD
